import Mathlib

/-!
Verification of the `docopt!` code generator (docopt_macros/src/macro.rs).

The generator parses its own invocation syntax (struct metadata, a usage
string, optional per-field type overrides), validates the usage string
through the external docopt library, infers a default field type for each
usage atom, and synthesizes a struct item plus a factory impl.

The shallow embedding below translates the source functions into Lean:
  * `Parsed.pat_type`       — the type inferencer (macro.rs lines 117-135);
  * `Parsed.struct_fields`  — field synthesis (lines 102-113);
  * `Parsed.struct_decl`    — the struct item with its attribute list
                              (lines 79-98);
  * `Parsed.items`          — the struct plus the factory impl (lines 59-76);
  * `MacParser_parse` and its sub-parsers — the invocation parser
    (lines 164-267), over an explicit token model of the host token stream;
  * `expand`                — the registered macro expander (lines 35-42).

Types owned by the docopt library itself (`Atom`, `Options`, `Docopt::new`,
`ArgvMap::key_to_struct_field`, `ArgvMap::struct_field_to_key`) are not under
src/; they are modelled from the spec where noted.
-/

set_option autoImplicit false

namespace DocoptMacros

/-- Modelled from the spec: the per-atom argument arity `Arg` of the docopt
library (`Zero | One`), where `One` carries an optional default value; the
source only ever matches `One(_)`. -/
inductive Arg where
  | Zero : Arg
  | One : Option String → Arg
  deriving DecidableEq, Repr

/-- Modelled from the spec: a usage-pattern element, variant over
positionals, options (flag spellings) and commands; owned by the docopt
library. Each variant carries the atom key as written. -/
inductive Atom where
  | Positional : String → Atom
  | Option : String → Atom
  | Command : String → Atom
  deriving DecidableEq, Repr

/-- Modelled from the spec: per-atom facts produced by usage validation
(`repeats`: may the atom appear more than once; `arg`: does it take a
value). -/
structure Options where
  repeats : Bool
  arg : Arg
  deriving DecidableEq, Repr

/-- The atom kind used by the inference table of the spec
(Positional | Option | Command). -/
inductive AtomKind where
  | Positional : AtomKind
  | Option : AtomKind
  | Command : AtomKind
  deriving DecidableEq, Repr

/-- Kind of an atom, classifying every atom into one of the three kinds. -/
def Atom.kind : Atom → AtomKind
  | Atom.Positional _ => AtomKind.Positional
  | Atom.Option _ => AtomKind.Option
  | Atom.Command _ => AtomKind.Command

/-- The generated Rust type syntax, as built by the source: plain
identifier types via `cx.ty_ident` (`bool`, `uint`, `String`), the
`Vec<String>` path type via `ty_vec_string`, and opaque user-supplied
override types (`P<ast::Ty>` carried through unchanged, identified by a
rendering). -/
inductive Ty where
  | ident : String → Ty
  | vecOf : Ty → Ty
  | user : String → Ty
  deriving DecidableEq, Repr

/-- `ty_vec_string` (macro.rs lines 298-313): builds the `Vec<String>`
type. -/
def ty_vec_string : Ty := Ty.vecOf (Ty.ident "String")

/-- `Parsed::pat_type` (macro.rs lines 117-135): the inferred type for a
usage pattern, matched on `(opts.repeats, opts.arg)` and, for `Zero`
arity, on whether the atom is `Positional`. -/
def pat_type (atom : Atom) (opts : Options) : Ty :=
  match opts.repeats, opts.arg with
  | false, Arg.Zero =>
    match atom with
    | Atom.Positional _ => Ty.ident "String"
    | _ => Ty.ident "bool"
  | true, Arg.Zero =>
    match atom with
    | Atom.Positional _ => ty_vec_string
    | _ => Ty.ident "uint"
  | false, Arg.One _ => Ty.ident "String"
  | true, Arg.One _ => ty_vec_string

/-- The 6-row inference table exactly as the spec states it, over
`(repeats, arg, atomKind)`. Spec type names map to generated Rust types:
Boolean = `bool`, String = `String`, UnsignedCount = `uint`,
SequenceOfString = `Vec<String>` (per the doc comment at macro.rs
lines 50-53). -/
def inferTableSpec (repeats : Bool) (arg : Arg) (kind : AtomKind) : Ty :=
  match repeats, arg, kind with
  | false, Arg.Zero, AtomKind.Positional => Ty.ident "String"
  | false, Arg.Zero, _ => Ty.ident "bool"
  | true, Arg.Zero, AtomKind.Positional => ty_vec_string
  | true, Arg.Zero, _ => Ty.ident "uint"
  | false, Arg.One _, _ => Ty.ident "String"
  | true, Arg.One _, _ => ty_vec_string

/-- The key as the source renders it: `atom.to_string()` returns the atom
key as written. Modelled from the spec (the key is the join between the
validated descriptor and field generation). -/
def Atom.to_string : Atom → String
  | Atom.Positional s => s
  | Atom.Option s => s
  | Atom.Command s => s

/-- Character-list prefix test used by the string helpers below (kept
structural so closed instances evaluate in the kernel). -/
def strStartsWith (s pre : String) : Bool :=
  pre.data.isPrefixOf s.data

/-- Character-wise map on strings, via the character list. -/
def strMapChars (f : Char → Char) (s : String) : String :=
  String.mk (s.data.map f)

/-- Drop the first `n` characters of a string, via the character list. -/
def strDropChars (n : Nat) (s : String) : String :=
  String.mk (s.data.drop n)

/-- Drop the final character of a string, via the character list. -/
def strDropLastChar (s : String) : String :=
  String.mk s.data.dropLast

/-- Modelled from the spec: `ArgvMap::key_to_struct_field`, the canonical
key-to-identifier transform of the naming-convention library. Flags
`--name` become `flag_name`, bracketed positionals `<name>` become
`arg_name`, commands become `cmd_name`; dashes become underscores. -/
def key_to_struct_field (key : String) : String :=
  let deDash := strMapChars (fun c => if c = '-' then '_' else c)
  if strStartsWith key "--" then "flag_" ++ deDash (strDropChars 2 key)
  else if strStartsWith key "-" then "flag_" ++ deDash (strDropChars 1 key)
  else if strStartsWith key "<" then
    "arg_" ++ deDash (strDropLastChar (strDropChars 1 key))
  else "cmd_" ++ deDash key

/-- Modelled from the spec: `ArgvMap::struct_field_to_key`, the inverse
identifier-to-key transform, mutually consistent with
`key_to_struct_field` on keys the validator can produce. -/
def struct_field_to_key (field : String) : String :=
  let reDash := strMapChars (fun c => if c = '_' then '-' else c)
  if strStartsWith field "flag_" then "--" ++ reDash (strDropChars 5 field)
  else if strStartsWith field "arg_" then
    "<" ++ reDash (strDropChars 4 field) ++ ">"
  else if strStartsWith field "cmd_" then reDash (strDropChars 4 field)
  else reDash field

/-- Modelled from the spec: `Atom::new`, classifying a key string into an
atom (owned by the docopt library): leading dash means an option,
leading angle bracket a positional, anything else a command. -/
def Atom.new (key : String) : Atom :=
  if strStartsWith key "-" then Atom.Option key
  else if strStartsWith key "<" then Atom.Positional key
  else Atom.Command key

/-- `HashMap::insert` semantics on the association-list model of
`HashMap<Atom, P<ast::Ty>>`: replace the binding if the key is present,
append it otherwise. -/
def mapInsert (m : List (Atom × Ty)) (k : Atom) (v : Ty) : List (Atom × Ty) :=
  match m with
  | [] => [(k, v)]
  | (k0, v0) :: rest =>
    if k0 = k then (k, v) :: rest else (k0, v0) :: mapInsert rest k v

/-- `HashMap::get` on the association-list model. -/
def mapGet (m : List (Atom × Ty)) (k : Atom) : Option Ty :=
  match m with
  | [] => none
  | (k0, v0) :: rest => if k0 = k then some v0 else mapGet rest k

/-- Modelled from the spec: the state of the docopt usage parser that the
macro reads back after validation — the full documentation text stored
verbatim plus the ordered atom-to-options descriptors (`descs`). -/
structure DocParser where
  full_doc : String
  descs : List (Atom × Options)
  deriving DecidableEq, Repr

/-- `StructInfo` (macro.rs lines 270-274): visibility, name and the
user-declared deriving list. -/
structure StructInfo where
  name : String
  public : Bool
  derives : List String
  deriving DecidableEq, Repr

/-- `Parsed` (macro.rs lines 46-54): the result of parsing a `docopt`
macro call — struct metadata, the validated docopt value, and the type
override map. -/
structure Parsed where
  struct_info : StructInfo
  doc : DocParser
  types : List (Atom × Ty)
  deriving DecidableEq, Repr

/-- A generated struct field: name plus type. The source always sets the
field visibility to `ast::Public` (`mk_struct_field`, lines 138-145). -/
structure StructField where
  name : String
  ty : Ty
  deriving DecidableEq, Repr

/-- `Parsed::mk_struct_field` (macro.rs lines 138-145). -/
def mk_struct_field (name : String) (ty : Ty) : StructField :=
  { name := name, ty := ty }

/-- `Parsed::struct_fields` (macro.rs lines 102-113): one field per entry
of `descs`, in iteration order; the field name comes from
`key_to_struct_field` on the atom key, the type from the override map
when a binding for the atom exists, else from `pat_type`. -/
def struct_fields (p : Parsed) : List StructField :=
  p.doc.descs.map (fun d =>
    let name := key_to_struct_field d.1.to_string
    let ty :=
      match mapGet p.types d.1 with
      | none => pat_type d.1 d.2
      | some ty => ty
    mk_struct_field name ty)

/-- An attribute, as built by `attribute` (macro.rs lines 282-288): a name
applied to a list of word meta items. -/
structure Attr where
  name : String
  items : List String
  deriving DecidableEq, Repr

/-- The generated struct item: visibility, name, fields and attributes. -/
structure ItemStruct where
  name : String
  public : Bool
  fields : List StructField
  attrs : List Attr
  deriving DecidableEq, Repr

/-- `Parsed::struct_decl` (macro.rs lines 79-98): the struct item, with
the `allow(non_snake_case)` attribute and a deriving attribute whose
trait list is `RustcDecodable` followed by the user-declared traits. -/
def struct_decl (p : Parsed) : ItemStruct :=
  let traits := "RustcDecodable" :: p.struct_info.derives
  { name := p.struct_info.name
    public := p.struct_info.public
    fields := struct_fields p
    attrs := [{ name := "allow", items := ["non_snake_case"] },
              { name := "deriving", items := traits }] }

/-- The generated factory impl (macro.rs lines 65-74): an impl on the
struct whose `docopt()` method re-runs `Docopt::new` on the stored
`full_doc` and unwraps the result. -/
structure ImplItem where
  struct_name : String
  factory_doc : String
  deriving DecidableEq, Repr

/-- `Parsed::items` (macro.rs lines 59-76): the two generated items — the
struct declaration and the factory impl carrying the full doc text. -/
def Parsed.items (p : Parsed) : ItemStruct × ImplItem :=
  (struct_decl p,
   { struct_name := p.struct_info.name, factory_doc := p.doc.full_doc })

/-- Does the character list contain the `Usage:` marker anywhere? -/
def hasUsageSeq : List Char → Bool
  | [] => false
  | c :: rest => ("Usage:".data.isPrefixOf (c :: rest)) || hasUsageSeq rest

/-- Modelled from the spec: the external usage validator `Docopt::new`.
Its internal grammar is out of scope; the model keeps the contract facts
the core relies on: it is a deterministic function of the raw text, it
stores the full documentation text verbatim on success, and it fails on
text without a `Usage:` section. -/
def docoptNew (s : String) : Except String DocParser :=
  if hasUsageSeq s.data then
    Except.ok { full_doc := s, descs := [] }
  else
    Except.error "no usage section found"

/-- The factory body generated by `Parsed::items`:
`docopt::Docopt::new(full_doc)` evaluated against a validator `f` at the
stored text. The generated code unwraps this result, so its error branch
is a panic, not a diagnosed user-facing error. -/
def docopt_factory (f : String → Except String DocParser) (d : DocParser) :
    Except String DocParser :=
  f d.full_doc

/-- An expression as seen by the macro after `parse_expr` plus full
expansion (`fold_expr`): either a string literal, or any other expression
carrying its `pprust` rendering (used only in the diagnostic). -/
inductive Expr where
  | LitStr : String → Expr
  | NotStr : String → Expr
  deriving DecidableEq, Repr

/-- The token model of the host token stream consumed by `MacParser`:
identifiers, the comma and colon separators, expression token trees, and
type token trees (consumed whole by `parse_ty`). End of input (`Eof`) is
the empty list. -/
inductive Token where
  | ident : String → Token
  | comma : Token
  | colon : Token
  | expr : Expr → Token
  | tyTok : Ty → Token
  deriving DecidableEq, Repr

/-- Outcome of a parsing step. `ok` carries the value, the remaining
tokens and the diagnostics emitted so far (`span_err` calls); `err` is
the diagnosed-failure path (`Err(())` after a `span_err`); `fatal` is a
host-parser fatal error (`parse_ident` / `expect` on an unexpected
token), which unwinds as a panic instead of returning. -/
inductive PResult (α : Type) where
  | ok : α → List Token → List String → PResult α
  | err : List String → PResult α
  | fatal : String → List String → PResult α
  deriving DecidableEq, Repr

/-- The `while !self.p.eat(&token::Comma) { ... parse_ident ... }` loop of
`parse_struct_info` (macro.rs lines 263-265): collect trait identifiers
until a comma; any other token (including end of input) is a host-parser
fatal error. -/
def parse_deriving_list : List Token → Except String (List String × List Token)
  | Token.comma :: rest => Except.ok ([], rest)
  | Token.ident i :: rest =>
    match parse_deriving_list rest with
    | Except.ok (l, ts) => Except.ok (i :: l, ts)
    | Except.error m => Except.error m
  | _ => Except.error "expected ident"

/-- `MacParser::parse_struct_info` after the visibility marker has been
consumed (macro.rs lines 250-266): struct name, then either a comma
(no deriving clause), or an identifier that must spell `deriving`
followed by the trait list. -/
def parse_struct_info_after_vis (vis : Bool) (toks : List Token)
    (errs : List String) : PResult StructInfo :=
  match toks with
  | Token.ident name :: Token.comma :: rest =>
    PResult.ok { name := name, public := vis, derives := [] } rest errs
  | Token.ident name :: Token.ident d :: rest =>
    if d = "deriving" then
      match parse_deriving_list rest with
      | Except.ok (l, ts) =>
        PResult.ok { name := name, public := vis, derives := l } ts errs
      | Except.error m => PResult.fatal m errs
    else
      PResult.err (errs ++ ["Expected deriving keyword but got " ++ d])
  | Token.ident _ :: _ => PResult.fatal "expected ident" errs
  | _ => PResult.fatal "expected ident" errs

/-- `MacParser::parse_struct_info` (macro.rs lines 248-267): an optional
`pub` visibility marker (`eat_keyword`), then the rest of the struct
metadata. -/
def parse_struct_info (toks : List Token) (errs : List String) :
    PResult StructInfo :=
  match toks with
  | Token.ident s :: rest =>
    if s = "pub" then parse_struct_info_after_vis true rest errs
    else parse_struct_info_after_vis false (Token.ident s :: rest) errs
  | _ => parse_struct_info_after_vis false toks errs

/-- `MacParser::parse_str` (macro.rs lines 208-235): parse one expression
(an identifier parses as a path expression), fully expand it; a string
literal is accepted, its contents returned, and the following token
consumed by the trailing `bump()`; any other expression emits one
diagnostic quoting the rendered expression and takes the diagnosed
failure path; a token that starts no expression is a host-parser fatal
error. -/
def parse_str (toks : List Token) (errs : List String) : PResult String :=
  match toks with
  | Token.expr (Expr.LitStr s) :: rest => PResult.ok s (rest.drop 1) errs
  | Token.expr (Expr.NotStr r) :: _ =>
    PResult.err (errs ++ ["Expected string literal but got " ++ r])
  | Token.ident r :: _ =>
    PResult.err (errs ++ ["Expected string literal but got " ++ r])
  | _ => PResult.fatal "expected expression" errs

/-- `parse_seq_to_end(&Eof, comma-separated, parse_type_annotation)`
(macro.rs lines 176-178 and 240-245): zero or more `ident : Ty` entries
separated by commas, trailing comma allowed, consuming up to end of
input. Grammar violations inside an entry (`parse_ident`, `expect`,
`parse_ty` on the wrong token) are host-parser fatal errors. The flag
records whether the first element has been parsed (no separator is
expected before the first element). -/
def parse_annots : Bool → List Token → Except String (List (String × Ty))
  | _, [] => Except.ok []
  | true, Token.ident n :: Token.colon :: Token.tyTok t :: rest =>
    (match parse_annots false rest with
     | Except.ok l => Except.ok ((n, t) :: l)
     | Except.error m => Except.error m)
  | true, _ => Except.error "expected ident colon type"
  | false, Token.comma :: [] => Except.ok []
  | false, Token.comma :: Token.ident n :: Token.colon :: Token.tyTok t :: rest =>
    (match parse_annots false rest with
     | Except.ok l => Except.ok ((n, t) :: l)
     | Except.error m => Except.error m)
  | false, Token.comma :: _ => Except.error "expected ident colon type"
  | false, _ => Except.error "expected comma"

/-- The override-map construction of `MacParser::parse` (macro.rs lines
176-184): map each parsed `ident : Ty` entry through
`struct_field_to_key` and `Atom::new`, then collect into a `HashMap`
(a left fold of inserts in entry order, so a later binding for the same key
overwrites an earlier one). -/
def annots_to_types (annots : List (String × Ty)) : List (Atom × Ty) :=
  (annots.map (fun a => (Atom.new (struct_field_to_key a.1), a.2))).foldl
    (fun m p => mapInsert m p.1 p.2) []

/-- `MacParser::parse` (macro.rs lines 164-204): empty input is a
diagnosed error; then struct metadata, the usage string, the type
annotations, and validation of the usage string through `Docopt::new`,
whose failure is diagnosed as `Invalid Docopt usage`. -/
def MacParser_parse (toks : List Token) : PResult Parsed :=
  match toks with
  | [] => PResult.err ["macro expects arguments"]
  | _ :: _ =>
    match parse_struct_info toks [] with
    | PResult.err e => PResult.err e
    | PResult.fatal m e => PResult.fatal m e
    | PResult.ok info toks1 errs1 =>
      match parse_str toks1 errs1 with
      | PResult.err e => PResult.err e
      | PResult.fatal m e => PResult.fatal m e
      | PResult.ok docstr toks2 errs2 =>
        match parse_annots true toks2 with
        | Except.error m => PResult.fatal m errs2
        | Except.ok annots =>
          match docoptNew docstr with
          | Except.error err =>
            PResult.err (errs2 ++ ["Invalid Docopt usage: " ++ err])
          | Except.ok doc =>
            PResult.ok
              { struct_info := info, doc := doc,
                types := annots_to_types annots } [] errs2

/-- The result of one macro invocation: the generated items, a
`DummyResult` placeholder, or a propagated host-parser panic. Each
constructor carries the diagnostics emitted during the invocation. -/
inductive ExpandResult where
  | items : ItemStruct × ImplItem → List String → ExpandResult
  | dummy : List String → ExpandResult
  | panic : String → List String → ExpandResult
  deriving DecidableEq, Repr

/-- `expand` (macro.rs lines 35-42): run the invocation parser; on
success emit the generated items, on diagnosed failure emit the
`DummyResult` placeholder; a host-parser fatal error propagates. -/
def expand (toks : List Token) : ExpandResult :=
  match MacParser_parse toks with
  | PResult.ok p _ errs => ExpandResult.items p.items errs
  | PResult.err errs => ExpandResult.dummy errs
  | PResult.fatal m errs => ExpandResult.panic m errs

end DocoptMacros

namespace DocoptMacros

/-- C1: for every atom descriptor in the domain
`(repeats : Bool, arg : Zero | One, atomKind : Positional | Option |
Command)`, the type inferencer `pat_type` returns exactly the type listed
in the 6-row rule table of the spec, and (being a total function into
`Ty`) no other outcome exists. -/
theorem C1_infer_table (repeats : Bool) (arg : Arg) (atom : Atom) :
    pat_type atom { repeats := repeats, arg := arg } =
      inferTableSpec repeats arg atom.kind ∧
    (pat_type atom { repeats := repeats, arg := arg } = Ty.ident "bool" ∨
     pat_type atom { repeats := repeats, arg := arg } = Ty.ident "String" ∨
     pat_type atom { repeats := repeats, arg := arg } = Ty.ident "uint" ∨
     pat_type atom { repeats := repeats, arg := arg } = ty_vec_string) := by
  cases atom <;> cases repeats <;> cases arg <;>
    simp [pat_type, inferTableSpec, Atom.kind, ty_vec_string]

/-- Looking up the freshly inserted key returns the inserted value. -/
theorem mapGet_mapInsert_self (m : List (Atom × Ty)) (k : Atom) (v : Ty) :
    mapGet (mapInsert m k v) k = some v := by
  induction m with
  | nil => simp [mapInsert, mapGet]
  | cons hd tl ih =>
    obtain ⟨k0, v0⟩ := hd
    by_cases hk : k0 = k
    · simp [mapInsert, hk, mapGet]
    · simp [mapInsert, hk, mapGet, ih]

/-- Inserting a binding for one key leaves lookups of other keys
unchanged. -/
theorem mapGet_mapInsert_ne (m : List (Atom × Ty)) (k b : Atom) (v : Ty)
    (h : b ≠ k) : mapGet (mapInsert m k v) b = mapGet m b := by
  induction m with
  | nil => simp [mapInsert, mapGet, Ne.symm h]
  | cons hd tl ih =>
    obtain ⟨k0, v0⟩ := hd
    by_cases hk : k0 = k
    · subst hk
      simp [mapInsert, mapGet, Ne.symm h]
    · simp [mapInsert, hk, mapGet, ih]

/-- C2: for every valid invocation the synthesizer produces exactly one
field per atom of the validated usage descriptor (field count equals
atom count), and the i-th generated field corresponds to the i-th
descriptor entry, so field order equals the descriptor iteration
order. -/
theorem C2_field_count_and_order (p : Parsed) :
    (struct_fields p).length = p.doc.descs.length ∧
    ∀ i : Nat,
      ((struct_fields p)[i]?).map StructField.name =
        (p.doc.descs[i]?).map
          (fun d => key_to_struct_field d.1.to_string) := by
  constructor
  · simp [struct_fields]
  · intro i
    simp [struct_fields, List.getElem?_map]
    cases p.doc.descs[i]? <;> simp [mk_struct_field]

/-- C4: the decoding capability `RustcDecodable` is always present in the
generated deriving attribute, whose trait list is exactly the decoding
capability followed by the user-declared traits in order, with
duplicates passed through (no deduplication). -/
theorem C4_decoding_capability (p : Parsed) :
    (struct_decl p).attrs =
      [{ name := "allow", items := ["non_snake_case"] },
       { name := "deriving",
         items := "RustcDecodable" :: p.struct_info.derives }] ∧
    ∃ a ∈ (struct_decl p).attrs,
      a.name = "deriving" ∧ "RustcDecodable" ∈ a.items := by
  refine ⟨rfl, ⟨{ name := "deriving",
                  items := "RustcDecodable" :: p.struct_info.derives },
                ?_, rfl, ?_⟩⟩
  · simp [struct_decl]
  · exact List.mem_cons_self _ _

/-- The modelled validator stores the documentation text verbatim. -/
theorem docoptNew_verbatim (s : String) (d : DocParser)
    (h : docoptNew s = Except.ok d) : d.full_doc = s := by
  unfold docoptNew at h
  split at h
  · cases h; rfl
  · cases h

/-- C3: for any validator that stores the validated text verbatim (the
documented contract of the usage validator, satisfied by the model
`docoptNew`), a generation-time validation success implies that the
generated factory, which re-validates the stored full documentation
text, also succeeds — the factory's error branch (the `unwrap` panic,
which is not a user-facing diagnostic) is unreachable. -/
theorem C3_factory_reconstruction
    (f : String → Except String DocParser)
    (hverb : ∀ s d, f s = Except.ok d → d.full_doc = s)
    (s : String) (d : DocParser) (h : f s = Except.ok d) :
    docopt_factory f d = Except.ok d := by
  unfold docopt_factory
  rw [hverb s d h]
  exact h

/-- Witness for C3 at the modelled validator and a concrete usage
text. -/
theorem C3_factory_reconstruction_witness :
    docopt_factory docoptNew { full_doc := "Usage: prog", descs := [] } =
      Except.ok { full_doc := "Usage: prog", descs := [] } :=
  C3_factory_reconstruction docoptNew docoptNew_verbatim "Usage: prog"
    { full_doc := "Usage: prog", descs := [] } (by rfl)

/-- C5: the i-th generated field has the name derived by the canonical
key-to-identifier transform from the i-th atom key, and its type is the
override bound to that atom when one exists, else the inferencer result;
moreover an override whose key matches no atom of the descriptor is
inert: inserting it leaves the generated fields unchanged (generation
still succeeds, producing the same fields). -/
theorem C5_override_or_infer (p : Parsed) :
    (∀ (i : Nat) (d : Atom × Options), p.doc.descs[i]? = some d →
      (struct_fields p)[i]? =
        some (mk_struct_field (key_to_struct_field d.1.to_string)
          ((mapGet p.types d.1).getD (pat_type d.1 d.2)))) ∧
    (∀ a t, (∀ d ∈ p.doc.descs, d.1 ≠ a) →
      struct_fields { p with types := mapInsert p.types a t } =
        struct_fields p) := by
  constructor
  · intro i d hd
    simp [struct_fields, List.getElem?_map, hd]
    cases h : mapGet p.types d.1 <;> simp [h]
  · intro a t hnone
    unfold struct_fields
    refine List.map_congr_left ?_
    intro d hd
    rw [mapGet_mapInsert_ne p.types a d.1 t (hnone d hd)]

/-- Witness for C5 at a concrete invocation: one option atom, no
overrides; an override for an unrelated command atom is inert. -/
theorem C5_override_or_infer_witness :
    (struct_fields
        { struct_info := { name := "Args", public := false, derives := [] },
          doc := { full_doc := "Usage: prog",
                   descs := [(Atom.Option "--v",
                              { repeats := false, arg := Arg.Zero })] },
          types := [] })[0]? =
      some (mk_struct_field "flag_v" (Ty.ident "bool")) ∧
    struct_fields
        { struct_info := { name := "Args", public := false, derives := [] },
          doc := { full_doc := "Usage: prog",
                   descs := [(Atom.Option "--v",
                              { repeats := false, arg := Arg.Zero })] },
          types := mapInsert [] (Atom.Command "x") (Ty.user "T") } =
      struct_fields
        { struct_info := { name := "Args", public := false, derives := [] },
          doc := { full_doc := "Usage: prog",
                   descs := [(Atom.Option "--v",
                              { repeats := false, arg := Arg.Zero })] },
          types := [] } := by
  constructor
  · exact (C5_override_or_infer
      { struct_info := { name := "Args", public := false, derives := [] },
        doc := { full_doc := "Usage: prog",
                 descs := [(Atom.Option "--v",
                            { repeats := false, arg := Arg.Zero })] },
        types := [] }).1 0
      (Atom.Option "--v", { repeats := false, arg := Arg.Zero }) rfl
  · exact (C5_override_or_infer
      { struct_info := { name := "Args", public := false, derives := [] },
        doc := { full_doc := "Usage: prog",
                 descs := [(Atom.Option "--v",
                            { repeats := false, arg := Arg.Zero })] },
        types := [] }).2 (Atom.Command "x") (Ty.user "T") (by decide)

/-- C9: when several override entries map to the same atom key, the entry
appearing last in the invocation silently overwrites the earlier ones in
the collected override map, and an invocation with duplicate override
keys is accepted without any diagnostic. -/
theorem C9_last_override_wins (l : List (String × Ty)) (n : String) (t : Ty) :
    mapGet (annots_to_types (l ++ [(n, t)]))
        (Atom.new (struct_field_to_key n)) = some t ∧
    (∃ r, expand [Token.ident "Args", Token.comma,
            Token.expr (Expr.LitStr "Usage: prog"), Token.comma,
            Token.ident "flag_a", Token.colon, Token.tyTok (Ty.ident "u8"),
            Token.comma,
            Token.ident "flag_a", Token.colon, Token.tyTok (Ty.ident "u16")] =
        ExpandResult.items r []) := by
  constructor
  · simp [annots_to_types, List.map_append, List.foldl_append,
          mapGet_mapInsert_self]
  · exact ⟨_, rfl⟩

/-- Diagnostics accounting for `parse_struct_info_after_vis`: success and
host-parser fatal errors emit nothing; the diagnosed-failure path emits
exactly one diagnostic. -/
theorem parse_struct_info_after_vis_errs (vis : Bool) (toks : List Token)
    (errs : List String) :
    match parse_struct_info_after_vis vis toks errs with
    | PResult.ok _ _ e => e = errs
    | PResult.err e => ∃ m, e = errs ++ [m]
    | PResult.fatal _ e => e = errs := by
  rcases toks with _ | ⟨t0, rest⟩
  · simp [parse_struct_info_after_vis]
  · rcases t0 with s | _ | _ | e0 | ty0
    · rcases rest with _ | ⟨t1, rest2⟩
      · simp [parse_struct_info_after_vis]
      · rcases t1 with s2 | _ | _ | e1 | ty1
        · by_cases hd : s2 = "deriving"
          · cases hdl : parse_deriving_list rest2 with
            | ok pr =>
              obtain ⟨l, ts⟩ := pr
              simp [parse_struct_info_after_vis, hd, hdl]
            | error m => simp [parse_struct_info_after_vis, hd, hdl]
          · simp only [parse_struct_info_after_vis, if_neg hd]
            exact ⟨_, rfl⟩
        · simp [parse_struct_info_after_vis]
        · simp [parse_struct_info_after_vis]
        · simp [parse_struct_info_after_vis]
        · simp [parse_struct_info_after_vis]
    · simp [parse_struct_info_after_vis]
    · simp [parse_struct_info_after_vis]
    · simp [parse_struct_info_after_vis]
    · simp [parse_struct_info_after_vis]

/-- Diagnostics accounting for `parse_struct_info`. -/
theorem parse_struct_info_errs (toks : List Token) (errs : List String) :
    match parse_struct_info toks errs with
    | PResult.ok _ _ e => e = errs
    | PResult.err e => ∃ m, e = errs ++ [m]
    | PResult.fatal _ e => e = errs := by
  rcases toks with _ | ⟨t0, rest⟩
  · simp only [parse_struct_info]
    exact parse_struct_info_after_vis_errs false [] errs
  · rcases t0 with s | _ | _ | e0 | ty0
    · simp only [parse_struct_info]
      by_cases hs : s = "pub"
      · rw [if_pos hs]
        exact parse_struct_info_after_vis_errs true rest errs
      · rw [if_neg hs]
        exact parse_struct_info_after_vis_errs false (Token.ident s :: rest) errs
    · simp only [parse_struct_info]
      exact parse_struct_info_after_vis_errs false (Token.comma :: rest) errs
    · simp only [parse_struct_info]
      exact parse_struct_info_after_vis_errs false (Token.colon :: rest) errs
    · simp only [parse_struct_info]
      exact parse_struct_info_after_vis_errs false (Token.expr e0 :: rest) errs
    · simp only [parse_struct_info]
      exact parse_struct_info_after_vis_errs false (Token.tyTok ty0 :: rest) errs

/-- Diagnostics accounting for `parse_str`. -/
theorem parse_str_errs (toks : List Token) (errs : List String) :
    match parse_str toks errs with
    | PResult.ok _ _ e => e = errs
    | PResult.err e => ∃ m, e = errs ++ [m]
    | PResult.fatal _ e => e = errs := by
  rcases toks with _ | ⟨t0, rest⟩
  · simp [parse_str]
  · rcases t0 with s | _ | _ | e0 | ty0
    · simp only [parse_str]
      exact ⟨_, rfl⟩
    · simp [parse_str]
    · simp [parse_str]
    · rcases e0 with s | r
      · simp [parse_str]
      · simp only [parse_str]
        exact ⟨_, rfl⟩
    · simp [parse_str]

/-- Diagnostics accounting for the whole invocation parser: a successful
parse emits no diagnostic; the diagnosed-failure path emits exactly
one. -/
theorem MacParser_parse_errs (toks : List Token) :
    match MacParser_parse toks with
    | PResult.ok _ _ e => e = []
    | PResult.err e => e.length = 1
    | PResult.fatal _ _ => True := by
  unfold MacParser_parse
  cases toks with
  | nil => simp
  | cons c cs =>
    have hA := parse_struct_info_errs (c :: cs) []
    cases h1 : parse_struct_info (c :: cs) [] with
    | err e1 =>
      rw [h1] at hA
      obtain ⟨m, hm⟩ := hA
      simp only [h1]
      simp [hm]
    | fatal m1 e1 => simp only [h1]
    | ok info toks1 errs1 =>
      rw [h1] at hA
      subst hA
      have hB := parse_str_errs toks1 []
      cases h2 : parse_str toks1 [] with
      | err e2 =>
        rw [h2] at hB
        obtain ⟨m, hm⟩ := hB
        simp only [h1, h2]
        simp [hm]
      | fatal m2 e2 => simp only [h1, h2]
      | ok docstr toks2 errs2 =>
        rw [h2] at hB
        subst hB
        simp only [h1, h2]
        cases h3 : parse_annots true toks2 with
        | error m => simp only [h3]
        | ok annots =>
          simp only [h3]
          cases h4 : docoptNew docstr with
          | error err0 => simp only [h4]; simp
          | ok doc0 => simp only [h4]

/-- C6: whenever an invocation ends in a diagnosed (user-facing) error,
exactly one diagnostic has been emitted and the invocation
short-circuits to the `DummyResult` placeholder, which carries no
record; a successful invocation emits no diagnostic. (Sibling
independence holds because `expand` is a pure function of the
invocation's own tokens, starting from an empty diagnostics state.) -/
theorem C6_single_diagnostic (toks : List Token) :
    (∀ e, expand toks = ExpandResult.dummy e → e.length = 1) ∧
    (∀ r e, expand toks = ExpandResult.items r e → e = []) := by
  have hL := MacParser_parse_errs toks
  constructor
  · intro e h
    unfold expand at h
    cases hp : MacParser_parse toks with
    | ok p ts e0 => rw [hp] at h; cases h
    | err e0 =>
      rw [hp] at h hL
      cases h
      exact hL
    | fatal m e0 => rw [hp] at h; cases h
  · intro r e h
    unfold expand at h
    cases hp : MacParser_parse toks with
    | ok p ts e0 =>
      rw [hp] at h hL
      cases h
      exact hL
    | err e0 => rw [hp] at h; cases h
    | fatal m e0 => rw [hp] at h; cases h

/-- Witness for C6 at a concrete failing invocation (non-literal usage
argument). -/
theorem C6_single_diagnostic_witness :
    expand [Token.ident "Args", Token.comma, Token.expr (Expr.NotStr "cfg")] =
      ExpandResult.dummy ["Expected string literal but got cfg"] ∧
    (["Expected string literal but got cfg"] : List String).length = 1 := by
  constructor
  · rfl
  · exact (C6_single_diagnostic
      [Token.ident "Args", Token.comma, Token.expr (Expr.NotStr "cfg")]).1
      ["Expected string literal but got cfg"] rfl

/-- C7: an invocation whose usage argument is, after expansion, not a
string literal fails with exactly one diagnostic that quotes the
rendered offending expression, and no record is generated (the result is
the placeholder); conversely a string-literal argument is accepted and
its contents returned. -/
theorem C7_not_a_string_literal :
    (∀ (toks : List Token) (info : StructInfo) (rest : List Token)
       (r : String),
      parse_struct_info toks [] =
        PResult.ok info (Token.expr (Expr.NotStr r) :: rest) [] →
      expand toks =
        ExpandResult.dummy ["Expected string literal but got " ++ r]) ∧
    (∀ (s : String) (rest : List Token) (errs : List String),
      parse_str (Token.expr (Expr.LitStr s) :: rest) errs =
        PResult.ok s (rest.drop 1) errs) := by
  constructor
  · intro toks info rest r h
    cases toks with
    | nil => simp [parse_struct_info, parse_struct_info_after_vis] at h
    | cons c cs =>
      unfold expand MacParser_parse
      simp [h, parse_str]
  · intro s rest errs
    rfl

/-- Witness for C7 at a concrete invocation with a non-literal usage
argument. -/
theorem C7_not_a_string_literal_witness :
    expand [Token.ident "Args", Token.comma, Token.expr (Expr.NotStr "env")] =
      ExpandResult.dummy ["Expected string literal but got env"] :=
  C7_not_a_string_literal.1
    [Token.ident "Args", Token.comma, Token.expr (Expr.NotStr "env")]
    { name := "Args", public := false, derives := [] } [] "env" rfl

/-- Counterexample to C8 as stated: a malformed type-annotation entry
(identifier not followed by a colon) makes the invocation parser abort
through a host-parser fatal error — a panic that propagates out of
`expand` — rather than taking the diagnosed-failure path. -/
theorem C8_counterexample :
    expand [Token.ident "Args", Token.comma,
            Token.expr (Expr.LitStr "Usage: prog"), Token.comma,
            Token.ident "foo", Token.ident "bar"] =
      ExpandResult.panic "expected ident colon type" [] := rfl

/-- C8 as amended: the invocation parser is total — on every input token
stream it either produces a `Parsed` request, or fails on the diagnosed
path having emitted exactly one localized diagnostic, or aborts with a
host-parser fatal error (a panic) on grammar violations inside
identifier, separator or type positions, such as malformed
type-annotation entries. -/
theorem C8_amended_total (toks : List Token) :
    (∃ p ts e, MacParser_parse toks = PResult.ok p ts e) ∨
    (∃ e, MacParser_parse toks = PResult.err e ∧ e.length = 1) ∨
    (∃ m e, MacParser_parse toks = PResult.fatal m e) := by
  have hL := MacParser_parse_errs toks
  cases hp : MacParser_parse toks with
  | ok p ts e => exact Or.inl ⟨p, ts, e, rfl⟩
  | err e =>
    rw [hp] at hL
    exact Or.inr (Or.inl ⟨e, rfl, hL⟩)
  | fatal m e => exact Or.inr (Or.inr ⟨m, e, rfl⟩)

/-- C10: an invocation in which `deriving` is immediately followed by the
comma ending the metadata is accepted with an empty user trait list, and
the struct generated from it carries only the mandatory decoding
capability in its deriving attribute. -/
theorem C10_empty_deriving (name : String) (hname : name ≠ "pub")
    (rest : List Token) (doc : DocParser) (types : List (Atom × Ty)) :
    parse_struct_info
        (Token.ident name :: Token.ident "deriving" :: Token.comma :: rest)
        [] =
      PResult.ok { name := name, public := false, derives := [] } rest [] ∧
    (struct_decl
        { struct_info := { name := name, public := false, derives := [] },
          doc := doc, types := types }).attrs =
      [{ name := "allow", items := ["non_snake_case"] },
       { name := "deriving", items := ["RustcDecodable"] }] := by
  constructor
  · simp [parse_struct_info, hname, parse_struct_info_after_vis,
          parse_deriving_list]
  · rfl

/-- Witness for C10 at a concrete invocation prefix. -/
theorem C10_empty_deriving_witness :
    parse_struct_info
        [Token.ident "Args", Token.ident "deriving", Token.comma] [] =
      PResult.ok { name := "Args", public := false, derives := [] } [] [] :=
  (C10_empty_deriving "Args" (by decide) []
    { full_doc := "", descs := [] } []).1

end DocoptMacros
